import Mathlib

/-!
Verification of the ethdebug-converter core decoders.

This file gives a shallow embedding of the two decoders and the record
builder of the repository:

- `SourceMapParser.parse` and its helpers (`parser.py`): the
  carry-forward decoder for the compressed Solidity source-map text.
- `parse_bytecode_to_instructions` (`parser.py`): the linear bytecode
  segmenter.  Python exceptions (the uncaught `ValueError` from
  `int(opcode_hex, 16)`) are modelled with `Except`.
- `EthdebugConverter._build_instructions` / `_build_context`
  (`converter.py`): the positional correlator.

Strings are processed at the level of their character lists, mirroring
Python's character-indexed slicing.
-/

deriving instance DecidableEq for Except

/-- Value of a decimal digit character. -/
def digitVal (c : Char) : Nat := c.toNat - 48

/-- Models Python `int()` applied to a string of decimal digits: an
optional single leading sign followed by at least one ASCII digit.
(Whitespace, underscore separators and non-ASCII digits, which Python's
`int()` also accepts, are not modelled; source-map fields are plain
decimal numerals.)  `none` models `int()` raising `ValueError`. -/
def digitsToNat? (cs : List Char) : Option Nat :=
  if cs = [] then none
  else if cs.all Char.isDigit then
    some (cs.foldl (fun acc c => 10 * acc + digitVal c) 0)
  else none

/-- Models Python `int(value)` for base 10, returning `none` for
`ValueError`. -/
def pyInt? (cs : List Char) : Option Int :=
  match cs with
  | '-' :: ds => (digitsToNat? ds).map (fun n => -(n : Int))
  | '+' :: ds => (digitsToNat? ds).map (fun n => (n : Int))
  | ds => (digitsToNat? ds).map (fun n => (n : Int))

/-- Python `str.split(sep)` for a single-character separator, on the
character list of a (nonempty) string: `"a;;".split(';') = ["a","",""]`. -/
def splitOn (sep : Char) : List Char → List (List Char)
  | [] => [[]]
  | c :: cs =>
    if c = sep then [] :: splitOn sep cs
    else
      match splitOn sep cs with
      | [] => [[c]]
      | h :: t => (c :: h) :: t

/-- One decoded source mapping entry (`SourceMapping` dataclass in
`parser.py`). -/
structure SourceMapping where
  start : Option Int
  length : Option Int
  file_index : Option Int
  jump_type : Option String
  modifier_depth : Option Int
deriving DecidableEq

/-- `SourceMapping.has_source_location`: start, length and file index all
present and the file index non-negative (with Python's short-circuit
`and`). -/
def SourceMapping.has_source_location (m : SourceMapping) : Bool :=
  m.start.isSome && m.length.isSome &&
    (match m.file_index with
     | some f => decide (0 ≤ f)
     | none => false)

/-- `SourceMapParser._parse_int`: empty string gives `None`; `int()`
failure (`ValueError`) is caught and gives `None`; a parsed negative
value also gives `None`. -/
def _parse_int (value : List Char) : Option Int :=
  if value = [] then none
  else
    match pyInt? value with
    | some val => if 0 ≤ val then some val else none
    | none => none

/-- The five `prev_*` loop variables of `SourceMapParser.parse`. -/
structure PrevState where
  prev_start : Option Int
  prev_length : Option Int
  prev_file : Option Int
  prev_jump : Option String
  prev_modifier : Option Int
deriving DecidableEq

/-- All five `prev_*` variables start out as `None`. -/
def initialState : PrevState :=
  { prev_start := none, prev_length := none, prev_file := none,
    prev_jump := none, prev_modifier := none }

/-- The mapping emitted for an empty entry: all previous values. -/
def mappingOfState (st : PrevState) : SourceMapping :=
  { start := st.prev_start, length := st.prev_length,
    file_index := st.prev_file, jump_type := st.prev_jump,
    modifier_depth := st.prev_modifier }

/-- Field 4 of an entry: `parts[3] if len(parts) > 3 and parts[3] else
None` — any non-empty string at index 3, taken verbatim. -/
def jumpFieldOf (parts : List (List Char)) : Option String :=
  match parts[3]? with
  | some p => if p = [] then none else some (String.mk p)
  | none => none

/-- One iteration of the entry loop of `SourceMapParser.parse`: given the
`prev_*` state and one `;`-separated entry, produce the updated state and
the emitted mapping.  Each numeric field updates its `prev_*` variable
when `_parse_int` succeeds and otherwise falls back to it; the jump field
updates on any non-empty string. -/
def entryStep (st : PrevState) (entry : List Char) : PrevState × SourceMapping :=
  if entry = [] then
    (st, mappingOfState st)
  else
    let parts := splitOn ':' entry
    let start :=
      match _parse_int (parts.getD 0 []) with
      | some v => some v
      | none => st.prev_start
    let length :=
      match _parse_int (parts.getD 1 []) with
      | some v => some v
      | none => st.prev_length
    let file_idx :=
      match _parse_int (parts.getD 2 []) with
      | some v => some v
      | none => st.prev_file
    let jump :=
      match jumpFieldOf parts with
      | some j => some j
      | none => st.prev_jump
    let modifier :=
      match _parse_int (parts.getD 4 []) with
      | some v => some v
      | none => st.prev_modifier
    (⟨start, length, file_idx, jump, modifier⟩,
     ⟨start, length, file_idx, jump, modifier⟩)

/-- The `for entry in entries` loop of `SourceMapParser.parse`, emitting
one mapping per entry. -/
def decodeLoop : PrevState → List (List Char) → List SourceMapping
  | _, [] => []
  | st, entry :: tl =>
    let step := entryStep st entry
    step.2 :: decodeLoop step.1 tl

/-- The `SourceMapParser` object: the input string and the `self.mappings`
accumulator (which `parse` appends to and returns). -/
structure SourceMapParser where
  srcmap : String
  mappings : List SourceMapping
deriving DecidableEq

/-- `SourceMapParser.__init__`: store the string, start with an empty
`self.mappings`. -/
def SourceMapParser.init (srcmap : String) : SourceMapParser :=
  { srcmap := srcmap, mappings := [] }

/-- `SourceMapParser.parse`: returns `[]` at once on an empty string;
otherwise appends one mapping per `;`-separated entry to `self.mappings`
and returns `self.mappings`.  The returned pair is (result, object after
the call), making the mutation of `self.mappings` explicit. -/
def SourceMapParser.parse (p : SourceMapParser) : List SourceMapping × SourceMapParser :=
  if p.srcmap = "" then ([], p)
  else
    let ms := p.mappings ++ decodeLoop initialState (splitOn ';' p.srcmap.data)
    (ms, { srcmap := p.srcmap, mappings := ms })

/-- Value of a hexadecimal digit character, `none` on any other
character.  Models Python `int(s, 16)` on the two-character opcode
slices (up to `int`'s additional tolerance for signs and whitespace,
which no claim exercises). -/
def hexVal? (c : Char) : Option Nat :=
  if ('0' ≤ c ∧ c ≤ '9') then some (c.toNat - 48)
  else if ('a' ≤ c ∧ c ≤ 'f') then some (c.toNat - 87)
  else if ('A' ≤ c ∧ c ≤ 'F') then some (c.toNat - 55)
  else none

/-- The `while i < len(bytecode)` loop of `parse_bytecode_to_instructions`
over the remaining character list, with the running `pc`.  The fuel
argument bounds the number of iterations; every iteration consumes at
least two characters, so fuel `cs.length` (used by `pbAux`) is always
sufficient and the `out of fuel` branch is unreachable from the top
level.  Errors model the uncaught `ValueError` of `int(opcode_hex, 16)`.
Returns the instruction list together with the final `pc`. -/
def pbLoop : Nat → List Char → Nat → Except String (List (Nat × List Char) × Nat)
  | _, [], pc => .ok ([], pc)
  | _, [_], pc => .ok ([], pc)
  | 0, _ :: _ :: _, _ => .error "out of fuel"
  | fuel + 1, c1 :: c2 :: rest, pc =>
    match hexVal? c1, hexVal? c2 with
    | some d1, some d2 =>
      let opcode := 16 * d1 + d2
      if 0x60 ≤ opcode ∧ opcode ≤ 0x7f then
        let push_bytes := opcode - 0x5f
        let instruction_bytes :=
          if 2 + 2 * push_bytes ≤ (c1 :: c2 :: rest).length then
            (c1 :: c2 :: rest).take (2 + 2 * push_bytes)
          else c1 :: c2 :: rest
        match pbLoop fuel (rest.drop (2 * push_bytes)) (pc + 1 + push_bytes) with
        | .ok (tl, fpc) => .ok ((pc, instruction_bytes) :: tl, fpc)
        | .error e => .error e
      else
        match pbLoop fuel rest (pc + 1) with
        | .ok (tl, fpc) => .ok ((pc, [c1, c2]) :: tl, fpc)
        | .error e => .error e
    | _, _ => .error "ValueError"

/-- The segmenter loop run with sufficient fuel. -/
def pbAux (cs : List Char) (pc : Nat) : Except String (List (Nat × List Char) × Nat) :=
  pbLoop cs.length cs pc

/-- Python `bytecode.startswith('0x')` stripping. -/
def strip0x : List Char → List Char
  | '0' :: 'x' :: rest => rest
  | cs => cs

/-- `parse_bytecode_to_instructions`: strip an optional `0x` prefix and
run the segmenter loop from `pc = 0`, returning `(pc, bytes)` pairs.
`Except.error` models the uncaught `ValueError`. -/
def parse_bytecode_to_instructions (bytecode : String) : Except String (List (Nat × String)) :=
  match pbAux (strip0x bytecode.data) 0 with
  | .ok (l, _) => .ok (l.map (fun pr => (pr.1, String.mk pr.2)))
  | .error e => .error e

/-- The `context` object built by `EthdebugConverter._build_context`
(the nested `{code: {source: {id, range: {start, length}}, jump?,
modifierDepth?}}` dictionary, flattened). -/
structure CodeContext where
  sourceId : Int
  rangeStart : Int
  rangeLength : Int
  jump : Option String
  modifierDepth : Option Int
deriving DecidableEq

/-- `EthdebugConverter._build_context`: nothing without a valid source
location; otherwise id/start/length, plus the jump string when truthy
and the modifier depth when present and strictly positive. -/
def _build_context (mapping : SourceMapping) : Option CodeContext :=
  if mapping.has_source_location then
    match mapping.start, mapping.length, mapping.file_index with
    | some s, some l, some f =>
      some { sourceId := f, rangeStart := s, rangeLength := l,
             jump :=
               match mapping.jump_type with
               | some j => if j = "" then none else some j
               | none => none,
             modifierDepth :=
               match mapping.modifier_depth with
               | some d => if 0 < d then some d else none
               | none => none }
    | _, _, _ => none
  else none

/-- One instruction record built by `EthdebugConverter._build_instructions`. -/
structure InstructionRecord where
  pc : Nat
  opcode : String
  bytes : String
  context : Option CodeContext
deriving DecidableEq

/-- The `for idx, (pc, opcode_bytes) in enumerate(instructions)` loop of
`_build_instructions`, carrying the running index. -/
def buildInstructionsAux (mappings : List SourceMapping) : Nat → List (Nat × String) → List InstructionRecord
  | _, [] => []
  | idx, (pc, opcode_bytes) :: tl =>
    { pc := pc,
      opcode := String.mk (opcode_bytes.data.take 2),
      bytes := opcode_bytes,
      context :=
        match mappings[idx]? with
        | some mapping => _build_context mapping
        | none => none } :: buildInstructionsAux mappings (idx + 1) tl

/-- `EthdebugConverter._build_instructions`: one record per instruction,
context attached from the mapping at the same index when one exists. -/
def _build_instructions (instructions : List (Nat × String)) (mappings : List SourceMapping) : List InstructionRecord :=
  buildInstructionsAux mappings 0 instructions

/-- All characters are hexadecimal digits. -/
def allHexB (cs : List Char) : Bool :=
  cs.all (fun c => (hexVal? c).isSome)

/-- Concatenation of the raw bytes of an instruction list. -/
def concatBytes (l : List (Nat × List Char)) : List Char :=
  (l.map Prod.snd).foldr (· ++ ·) []

/-- Declared byte length of an instruction, from its opcode byte:
`1 + (opcode - 0x5f)` for PUSH1..PUSH32, otherwise 1. -/
def declaredLength (bs : List Char) : Nat :=
  match bs with
  | c1 :: c2 :: _ =>
    (match hexVal? c1, hexVal? c2 with
     | some d1, some d2 =>
       let opcode := 16 * d1 + d2
       if 0x60 ≤ opcode ∧ opcode ≤ 0x7f then 1 + (opcode - 0x5f) else 1
     | _, _ => 1)
  | _ => 1

/-- The program counters of an instruction list form the gap-free chain
starting at `pc0`: each instruction's `pc` is the previous one's `pc`
plus the previous one's declared byte length. -/
def chainFromB : Nat → List (Nat × List Char) → Bool
  | _, [] => true
  | pc0, (p, bs) :: tl => (p == pc0) && chainFromB (pc0 + declaredLength bs) tl

/-- An optional integer that is non-negative whenever present. -/
def optNN (o : Option Int) : Prop := ∀ v, o = some v → 0 ≤ v

/-- Invariant of the `prev_*` state maintained by the entry loop: numeric
values are non-negative, the jump string is never empty. -/
def stInv (st : PrevState) : Prop :=
  optNN st.prev_start ∧ optNN st.prev_length ∧ optNN st.prev_file ∧
    optNN st.prev_modifier ∧ st.prev_jump ≠ some ""

/-- Invariant of every emitted mapping. -/
def mapInv (m : SourceMapping) : Prop :=
  optNN m.start ∧ optNN m.length ∧ optNN m.file_index ∧
    optNN m.modifier_depth ∧ m.jump_type ≠ some ""

theorem _parse_int_nonneg (cs : List Char) (v : Int) (h : _parse_int cs = some v) : 0 ≤ v := by
  unfold _parse_int at h
  split at h
  · exact absurd h (by simp)
  · cases hp : pyInt? cs with
    | none => rw [hp] at h; exact absurd h (by simp)
    | some w =>
      rw [hp] at h
      by_cases hw : 0 ≤ w
      · simp [hw] at h; omega
      · simp [hw] at h

theorem jumpFieldOf_ne_empty (parts : List (List Char)) (j : String)
    (h : jumpFieldOf parts = some j) : j ≠ "" := by
  unfold jumpFieldOf at h
  cases hp : parts[3]? with
  | none => rw [hp] at h; exact absurd h (by simp)
  | some p =>
    rw [hp] at h
    by_cases hq : p = []
    · simp [hq] at h
    · simp [hq] at h
      intro hj
      apply hq
      have : (String.mk p).data = ("" : String).data := by rw [h, hj]
      simpa using this

theorem optNN_update (o : Option Int) (x : List Char) (h : optNN o) :
    optNN (match _parse_int x with | some v => some v | none => o) := by
  cases hp : _parse_int x with
  | none => simpa using h
  | some w =>
    intro v hv
    simp at hv
    subst hv
    exact _parse_int_nonneg x w hp

theorem entryStep_inv (st : PrevState) (e : List Char) (h : stInv st) :
    stInv (entryStep st e).1 ∧ mapInv (entryStep st e).2 := by
  obtain ⟨h1, h2, h3, h4, h5⟩ := h
  by_cases he : e = []
  · simp only [entryStep, he, if_pos rfl]
    exact ⟨⟨h1, h2, h3, h4, h5⟩, ⟨h1, h2, h3, h4, h5⟩⟩
  · simp only [entryStep, if_neg he]
    have hj : (match jumpFieldOf (splitOn ':' e) with
        | some j => some j
        | none => st.prev_jump) ≠ some "" := by
      cases hp : jumpFieldOf (splitOn ':' e) with
      | none => simpa using h5
      | some j =>
        simp only
        intro hc
        simp at hc
        exact jumpFieldOf_ne_empty _ j hp hc
    exact ⟨⟨optNN_update _ _ h1, optNN_update _ _ h2, optNN_update _ _ h3,
            optNN_update _ _ h4, hj⟩,
           ⟨optNN_update _ _ h1, optNN_update _ _ h2, optNN_update _ _ h3,
            optNN_update _ _ h4, hj⟩⟩

theorem decodeLoop_inv (es : List (List Char)) : ∀ (st : PrevState), stInv st →
    ∀ m ∈ decodeLoop st es, mapInv m := by
  induction es with
  | nil => intro st _ m hm; simp [decodeLoop] at hm
  | cons e tl ih =>
    intro st hst m hm
    simp only [decodeLoop, List.mem_cons] at hm
    rcases hm with hm | hm
    · subst hm; exact (entryStep_inv st e hst).2
    · exact ih _ (entryStep_inv st e hst).1 m hm

theorem initialState_inv : stInv initialState := by
  refine ⟨?_, ?_, ?_, ?_, ?_⟩ <;> first
  | exact fun v hv => by simp [initialState] at hv
  | simp [initialState]

theorem parse_mem_inv (s : String) (m : SourceMapping)
    (hm : m ∈ ((SourceMapParser.init s).parse).1) : mapInv m := by
  by_cases hs : s = ""
  · simp [SourceMapParser.parse, SourceMapParser.init, hs] at hm
  · simp only [SourceMapParser.parse, SourceMapParser.init, if_neg hs,
      List.nil_append] at hm
    exact decodeLoop_inv _ initialState initialState_inv m hm

theorem decodeLoop_length (es : List (List Char)) : ∀ st : PrevState,
    (decodeLoop st es).length = es.length := by
  induction es with
  | nil => intro st; simp [decodeLoop]
  | cons e tl ih => intro st; simp [decodeLoop, ih]

theorem allHexB_drop (cs : List Char) (n : Nat) (h : allHexB cs = true) :
    allHexB (cs.drop n) = true := by
  simp only [allHexB, List.all_eq_true] at *
  exact fun c hc => h c (List.drop_subset n cs hc)

theorem pbLoop_total : ∀ (f : Nat) (cs : List Char) (pc : Nat), cs.length ≤ f →
    allHexB cs = true → ∃ l fpc, pbLoop f cs pc = .ok (l, fpc) := by
  intro f
  induction f using Nat.strong_induction_on with
  | _ f ih =>
    intro cs pc hle hhex
    rcases cs with _ | ⟨c1, _ | ⟨c2, rest⟩⟩
    · exact ⟨[], pc, by simp [pbLoop]⟩
    · exact ⟨[], pc, by simp [pbLoop]⟩
    · cases f with
      | zero => simp at hle
      | succ f =>
        simp only [allHexB, List.all_cons, Bool.and_eq_true] at hhex
        obtain ⟨ha, hb, hrest⟩ := hhex
        obtain ⟨d1, hd1⟩ := Option.isSome_iff_exists.mp ha
        obtain ⟨d2, hd2⟩ := Option.isSome_iff_exists.mp hb
        simp only [pbLoop, hd1, hd2]
        by_cases hp : 0x60 ≤ 16 * d1 + d2 ∧ 16 * d1 + d2 ≤ 0x7f
        · rw [if_pos hp]
          have hlen : (rest.drop (2 * (16 * d1 + d2 - 0x5f))).length ≤ f := by
            simp only [List.length_cons] at hle
            have := List.length_drop (2 * (16 * d1 + d2 - 0x5f)) rest
            omega
          have hhex' : allHexB (rest.drop (2 * (16 * d1 + d2 - 0x5f))) = true :=
            allHexB_drop rest _ (by simpa [allHexB] using hrest)
          obtain ⟨tl, fpc, htl⟩ := ih f (by omega) _ (pc + 1 + (16 * d1 + d2 - 0x5f)) hlen hhex'
          simp only [htl]
          exact ⟨_, _, rfl⟩
        · rw [if_neg hp]
          have hlen : rest.length ≤ f := by
            simp only [List.length_cons] at hle; omega
          obtain ⟨tl, fpc, htl⟩ := ih f (by omega) rest (pc + 1) hlen
            (by simpa [allHexB] using hrest)
          simp only [htl]
          exact ⟨_, _, rfl⟩

theorem concatBytes_cons (p : Nat × List Char) (l : List (Nat × List Char)) :
    concatBytes (p :: l) = p.2 ++ concatBytes l := rfl

theorem pbLoop_sound : ∀ (f : Nat) (cs : List Char) (pc : Nat) (l : List (Nat × List Char)) (fpc : Nat),
    cs.length ≤ f → pbLoop f cs pc = .ok (l, fpc) →
    chainFromB pc l = true ∧ (concatBytes l = cs ∨ concatBytes l = cs.dropLast) := by
  intro f
  induction f using Nat.strong_induction_on with
  | _ f ih =>
    intro cs pc l fpc hle hok
    rcases cs with _ | ⟨c1, _ | ⟨c2, rest⟩⟩
    · simp only [pbLoop, Except.ok.injEq, Prod.mk.injEq] at hok
      obtain ⟨hl, _⟩ := hok
      subst hl
      exact ⟨rfl, Or.inl rfl⟩
    · simp only [pbLoop, Except.ok.injEq, Prod.mk.injEq] at hok
      obtain ⟨hl, _⟩ := hok
      subst hl
      exact ⟨rfl, Or.inr rfl⟩
    · cases f with
      | zero => simp at hle
      | succ f =>
        simp only [pbLoop] at hok
        cases hd1 : hexVal? c1 <;> cases hd2 : hexVal? c2 <;>
          simp only [hd1, hd2] at hok
        case none.none => simp at hok
        case none.some => simp at hok
        case some.none => simp at hok
        case some.some d1 d2 =>
        by_cases hp : 0x60 ≤ 16 * d1 + d2 ∧ 16 * d1 + d2 ≤ 0x7f
        · rw [if_pos hp] at hok
          by_cases hcomp : 2 + 2 * (16 * d1 + d2 - 0x5f) ≤ (c1 :: c2 :: rest).length
          · -- complete PUSH
            rw [if_pos hcomp] at hok
            cases hrec : pbLoop f (rest.drop (2 * (16 * d1 + d2 - 0x5f)))
                (pc + 1 + (16 * d1 + d2 - 0x5f)) with
            | error e => rw [hrec] at hok; simp at hok
            | ok pr =>
              obtain ⟨tl, fpc'⟩ := pr
              rw [hrec] at hok
              simp only [Except.ok.injEq, Prod.mk.injEq] at hok
              obtain ⟨hl, hf⟩ := hok
              subst hl
              have hlen : (rest.drop (2 * (16 * d1 + d2 - 0x5f))).length ≤ f := by
                simp only [List.length_cons] at hle
                have := List.length_drop (2 * (16 * d1 + d2 - 0x5f)) rest
                omega
              obtain ⟨hchain, hconc⟩ := ih f (by omega) _ _ _ _ hlen hrec
              have htake : (c1 :: c2 :: rest).take (2 + 2 * (16 * d1 + d2 - 0x5f)) =
                  c1 :: c2 :: rest.take (2 * (16 * d1 + d2 - 0x5f)) := by
                have hnum : 2 + 2 * (16 * d1 + d2 - 0x5f) =
                    (2 * (16 * d1 + d2 - 0x5f) + 1) + 1 := by omega
                rw [hnum, List.take_succ_cons, List.take_succ_cons]
              constructor
              · have hdl : declaredLength ((c1 :: c2 :: rest).take (2 + 2 * (16 * d1 + d2 - 0x5f))) =
                    1 + (16 * d1 + d2 - 0x5f) := by
                  rw [htake]
                  simp [declaredLength, hd1, hd2, hp]
                simp only [chainFromB, hdl, beq_self_eq_true, Bool.true_and]
                have : pc + (1 + (16 * d1 + d2 - 0x5f)) = pc + 1 + (16 * d1 + d2 - 0x5f) := by omega
                rw [this]
                exact hchain
              · rw [concatBytes_cons, htake]
                rcases hconc with hconc | hconc
                · left
                  simp only [hconc, List.cons_append]
                  rw [List.take_append_drop]
                · by_cases hnil : rest.drop (2 * (16 * d1 + d2 - 0x5f)) = []
                  · left
                    rw [hnil] at hconc
                    simp only [List.dropLast_nil] at hconc
                    have hlen2 : rest.length ≤ 2 * (16 * d1 + d2 - 0x5f) := by
                      have := List.length_drop (2 * (16 * d1 + d2 - 0x5f)) rest
                      rw [hnil] at this
                      simp at this
                      omega
                    have hlen3 : 2 * (16 * d1 + d2 - 0x5f) ≤ rest.length := by
                      simp only [List.length_cons] at hcomp
                      omega
                    have : rest.take (2 * (16 * d1 + d2 - 0x5f)) = rest :=
                      List.take_of_length_le hlen2
                    simp [hconc, this]
                  · right
                    have hrest : rest ≠ [] := by
                      intro h
                      subst h
                      simp at hnil
                    rw [hconc, List.cons_append, List.cons_append,
                      ← List.dropLast_append_of_ne_nil _ hnil, List.take_append_drop]
                    have h2 : (c1 :: c2 :: rest) = [c1, c2] ++ rest := rfl
                    rw [h2, List.dropLast_append_of_ne_nil _ hrest]
                    simp
          · -- truncated PUSH
            rw [if_neg hcomp] at hok
            have hdrop : rest.drop (2 * (16 * d1 + d2 - 0x5f)) = [] := by
              apply List.drop_eq_nil_of_le
              simp only [List.length_cons] at hcomp
              omega
            rw [hdrop] at hok
            simp only [pbLoop, Except.ok.injEq, Prod.mk.injEq] at hok
            obtain ⟨hl, hf⟩ := hok
            subst hl
            constructor
            · simp [chainFromB]
            · left
              simp [concatBytes_cons, concatBytes]
        · rw [if_neg hp] at hok
          cases hrec : pbLoop f rest (pc + 1) with
          | error e => rw [hrec] at hok; simp at hok
          | ok pr =>
            obtain ⟨tl, fpc'⟩ := pr
            rw [hrec] at hok
            simp only [Except.ok.injEq, Prod.mk.injEq] at hok
            obtain ⟨hl, hf⟩ := hok
            subst hl
            have hlen : rest.length ≤ f := by
              simp only [List.length_cons] at hle
              omega
            obtain ⟨hchain, hconc⟩ := ih f (by omega) _ _ _ _ hlen hrec
            constructor
            · have hdl : declaredLength [c1, c2] = 1 := by
                simp [declaredLength, hd1, hd2, hp]
              simp only [chainFromB, hdl, beq_self_eq_true, Bool.true_and]
              exact hchain
            · rw [concatBytes_cons]
              rcases hconc with hconc | hconc
              · left
                simp [hconc]
              · by_cases hrest : rest = []
                · left
                  subst hrest
                  simp only [List.dropLast_nil] at hconc
                  simp [hconc]
                · right
                  rw [hconc]
                  have h2 : (c1 :: c2 :: rest) = [c1, c2] ++ rest := rfl
                  rw [h2, List.dropLast_append_of_ne_nil _ hrest]

theorem buildInstructionsAux_length (mappings : List SourceMapping) :
    ∀ (instrs : List (Nat × String)) (idx : Nat),
    (buildInstructionsAux mappings idx instrs).length = instrs.length := by
  intro instrs
  induction instrs with
  | nil => intro idx; simp [buildInstructionsAux]
  | cons a tl ih =>
    intro idx
    obtain ⟨pc, bs⟩ := a
    simp [buildInstructionsAux, ih]

theorem buildInstructionsAux_getElem? (mappings : List SourceMapping) :
    ∀ (instrs : List (Nat × String)) (idx i : Nat),
    (buildInstructionsAux mappings idx instrs)[i]? =
      (instrs[i]?).map (fun pr =>
        { pc := pr.1, opcode := String.mk (pr.2.data.take 2), bytes := pr.2,
          context :=
            match mappings[idx + i]? with
            | some mapping => _build_context mapping
            | none => none }) := by
  intro instrs
  induction instrs with
  | nil => intro idx i; simp [buildInstructionsAux]
  | cons a tl ih =>
    intro idx i
    obtain ⟨pc, bs⟩ := a
    cases i with
    | zero => simp [buildInstructionsAux]
    | succ i =>
      simp only [buildInstructionsAux, List.getElem?_cons_succ, ih (idx + 1) i,
        List.getElem?_cons_succ]
      have : idx + 1 + i = idx + (i + 1) := by omega
      rw [this]

/-- Claim C1 counterexample: the bytecode segmenter is not total — on the
input `"zz"` the call `int("zz", 16)` raises `ValueError` (no surrounding
`try`/`except` in `parse_bytecode_to_instructions`), modelled here as
`Except.error "ValueError"`. -/
theorem bytecode_decoder_raises_on_nonhex :
    parse_bytecode_to_instructions "zz" = .error "ValueError" := by decide

/-- Claim C1 (amended): the source-map decoder is total — for every input
string it returns a sequence with exactly one entry per `;`-separated
segment and never raises; the bytecode segmenter never raises and returns
a sequence whenever the input (after stripping an optional `0x` prefix)
consists only of hexadecimal digits. -/
theorem decoder_totality_amended :
    (∀ s : String, ((SourceMapParser.init s).parse).1.length =
      if s = "" then 0 else (splitOn ';' s.data).length)
    ∧ (∀ s : String, allHexB (strip0x s.data) = true →
        ∃ l, parse_bytecode_to_instructions s = .ok l) := by
  constructor
  · intro s
    by_cases hs : s = ""
    · simp [SourceMapParser.parse, SourceMapParser.init, hs]
    · simp [SourceMapParser.parse, SourceMapParser.init, hs, decodeLoop_length]
  · intro s hhex
    obtain ⟨l, fpc, hl⟩ := pbLoop_total (strip0x s.data).length (strip0x s.data) 0 le_rfl hhex
    refine ⟨l.map (fun pr => (pr.1, String.mk pr.2)), ?_⟩
    simp [parse_bytecode_to_instructions, pbAux, hl]

/-- Claim C1 witness. -/
theorem decoder_totality_amended_witness :
    (((SourceMapParser.init "x;y").parse).1.length =
      if ("x;y" : String) = "" then 0 else (splitOn ';' ("x;y" : String).data).length)
    ∧ ∃ l, parse_bytecode_to_instructions "00" = .ok l :=
  ⟨decoder_totality_amended.1 "x;y", decoder_totality_amended.2 "00" (by decide)⟩

/-- Claim C2 counterexample: the unrecognized field-4 value `"x"` updates
the current jump scalar (it is carried into the second entry) and is
serialized verbatim in the built context, not mapped to `none` and not
restricted to the markers `-`, `i`, `o`. -/
theorem jump_marker_not_filtered :
    ((SourceMapParser.init "0:1:0:x:0;0:1:0").parse).1 =
      [⟨some 0, some 1, some 0, some "x", some 0⟩,
       ⟨some 0, some 1, some 0, some "x", some 0⟩]
    ∧ _build_context ⟨some 0, some 1, some 0, some "x", some 0⟩ =
        some ⟨0, 0, 1, some "x", none⟩
    ∧ ("x" : String) ≠ "-" ∧ ("x" : String) ≠ "i" ∧ ("x" : String) ≠ "o" := by decide

/-- Claim C2 (amended): any non-empty value in field 4 — not only the
markers `-`, `i`, `o` — updates the current jump scalar and is stored
verbatim; an empty or absent field 4 carries the previous value forward;
the built context serializes the stored jump string verbatim whenever one
is stored (the stored string is never empty for decoded entries) and
omits the field only when nothing is stored. -/
theorem jump_field_verbatim :
    (∀ (st : PrevState) (e : List Char) (j : String), e ≠ [] →
      jumpFieldOf (splitOn ':' e) = some j →
      (entryStep st e).1.prev_jump = some j ∧ (entryStep st e).2.jump_type = some j)
    ∧ (∀ (st : PrevState) (e : List Char), e ≠ [] →
      jumpFieldOf (splitOn ':' e) = none →
      (entryStep st e).1.prev_jump = st.prev_jump
        ∧ (entryStep st e).2.jump_type = st.prev_jump)
    ∧ (∀ (m : SourceMapping) (c : CodeContext), _build_context m = some c →
        c.jump = match m.jump_type with
                 | some j => if j = "" then none else some j
                 | none => none)
    ∧ (∀ s : String, ∀ m ∈ ((SourceMapParser.init s).parse).1, m.jump_type ≠ some "") := by
  refine ⟨?_, ?_, ?_, ?_⟩
  · intro st e j he hj
    simp [entryStep, if_neg he, hj]
  · intro st e he hj
    simp [entryStep, if_neg he, hj]
  · intro m c hc
    unfold _build_context at hc
    split at hc
    · rcases hm : m.start with _ | s
      · rw [hm] at hc; exact absurd hc (by simp)
      · rcases hl : m.length with _ | l
        · rw [hm, hl] at hc; exact absurd hc (by simp)
        · rcases hf : m.file_index with _ | f
          · rw [hm, hl, hf] at hc; exact absurd hc (by simp)
          · rw [hm, hl, hf] at hc
            simp only [Option.some.injEq] at hc
            rw [← hc]
    · exact absurd hc (by simp)
  · intro s m hm
    exact (parse_mem_inv s m hm).2.2.2.2

/-- Claim C2 witness. -/
theorem jump_field_verbatim_witness :
    ((entryStep initialState ("0:1:0:x:0" : String).data).1.prev_jump = some "x"
      ∧ (entryStep initialState ("0:1:0:x:0" : String).data).2.jump_type = some "x")
    ∧ ((entryStep initialState ("0:1:0" : String).data).1.prev_jump = initialState.prev_jump
      ∧ (entryStep initialState ("0:1:0" : String).data).2.jump_type = initialState.prev_jump)
    ∧ ((⟨0, 0, 1, some "i", none⟩ : CodeContext).jump =
        match (⟨some 0, some 1, some 0, some "i", none⟩ : SourceMapping).jump_type with
        | some j => if j = "" then none else some j
        | none => none)
    ∧ (⟨some 0, some 1, some 0, some "-", some 0⟩ : SourceMapping).jump_type ≠ some "" :=
  ⟨jump_field_verbatim.1 initialState ("0:1:0:x:0" : String).data "x" (by decide) (by decide),
   jump_field_verbatim.2.1 initialState ("0:1:0" : String).data (by decide) (by decide),
   jump_field_verbatim.2.2.1 ⟨some 0, some 1, some 0, some "i", none⟩ ⟨0, 0, 1, some "i", none⟩
     (by decide),
   jump_field_verbatim.2.2.2 "0:1:0:-:0" ⟨some 0, some 1, some 0, some "-", some 0⟩ (by decide)⟩

/-- Claim C3: a bytecode buffer ending inside a PUSH operand (opcode in
`[0x60, 0x7f]` with fewer remaining bytes than the declared
`1 + (opcode - 0x5f)`) yields one final instruction holding exactly the
remaining characters, advances `pc` by the declared length, and
terminates; in particular `"7f01"` gives a single instruction at `pc = 0`
with raw bytes `"7f01"`. -/
theorem truncated_push_instruction :
    (∀ (c1 c2 : Char) (rest : List Char) (pc d1 d2 : Nat),
      hexVal? c1 = some d1 → hexVal? c2 = some d2 →
      0x60 ≤ 16 * d1 + d2 → 16 * d1 + d2 ≤ 0x7f →
      rest.length < 2 * (16 * d1 + d2 - 0x5f) →
      pbAux (c1 :: c2 :: rest) pc =
        .ok ([(pc, c1 :: c2 :: rest)], pc + 1 + (16 * d1 + d2 - 0x5f)))
    ∧ parse_bytecode_to_instructions "7f01" = .ok [(0, "7f01")] := by
  constructor
  · intro c1 c2 rest pc d1 d2 hd1 hd2 hlo hhi htr
    unfold pbAux
    simp only [List.length_cons]
    simp only [pbLoop, hd1, hd2]
    rw [if_pos ⟨hlo, hhi⟩]
    have hcomp : ¬ (2 + 2 * (16 * d1 + d2 - 0x5f) ≤ (c1 :: c2 :: rest).length) := by
      simp only [List.length_cons]
      omega
    rw [if_neg hcomp]
    have hdrop : rest.drop (2 * (16 * d1 + d2 - 0x5f)) = [] :=
      List.drop_eq_nil_of_le (by omega)
    rw [hdrop]
    simp [pbLoop]
  · decide

/-- Claim C3 witness. -/
theorem truncated_push_instruction_witness :
    pbAux ['7', 'f', '0', '1'] 0 =
      .ok ([(0, ['7', 'f', '0', '1'])], 0 + 1 + (16 * 7 + 15 - 0x5f))
    ∧ parse_bytecode_to_instructions "7f01" = .ok [(0, "7f01")] :=
  ⟨truncated_push_instruction.1 '7' 'f' ['0', '1'] 0 7 15 (by decide) (by decide)
     (by decide) (by decide) (by decide),
   truncated_push_instruction.2⟩

/-- Claim C4 counterexample: on the odd-length input `"016"` the decoded
instructions' raw bytes do not tile the input buffer — the final dangling
digit `'6'` is not covered by any instruction. -/
theorem tiling_fails_on_dangling_digit :
    pbAux (strip0x ("016" : String).data) 0 = .ok ([(0, ['0', '1'])], 1)
    ∧ concatBytes [(0, ['0', '1'])] ≠ ("016" : String).data := by decide

/-- Claim C4 (amended): whenever the segmenter succeeds, the program
counters form the gap-free chain starting at 0 in which each instruction's
`pc` is the previous `pc` plus the previous instruction's declared byte
length, and the instructions' raw bytes tile the (`0x`-stripped) input
buffer contiguously except that a final dangling hex digit not absorbed
by a truncated PUSH operand is dropped; the concrete example
`"6001600101"` decodes exactly as stated. -/
theorem pc_chain_and_tiling_amended :
    (∀ (s : String) (l : List (Nat × List Char)) (fpc : Nat),
      pbAux (strip0x s.data) 0 = .ok (l, fpc) →
      chainFromB 0 l = true ∧
        (concatBytes l = strip0x s.data ∨ concatBytes l = (strip0x s.data).dropLast))
    ∧ parse_bytecode_to_instructions "6001600101" =
        .ok [(0, "6001"), (2, "6001"), (4, "01")] := by
  constructor
  · intro s l fpc h
    exact pbLoop_sound (strip0x s.data).length (strip0x s.data) 0 l fpc le_rfl h
  · decide

/-- Claim C4 witness. -/
theorem pc_chain_and_tiling_amended_witness :
    (chainFromB 0 [(0, ['6', '0', '0', '1']), (2, ['6', '0', '0', '1']), (4, ['0', '1'])] = true
      ∧ (concatBytes [(0, ['6', '0', '0', '1']), (2, ['6', '0', '0', '1']), (4, ['0', '1'])] =
            strip0x ("6001600101" : String).data
          ∨ concatBytes [(0, ['6', '0', '0', '1']), (2, ['6', '0', '0', '1']), (4, ['0', '1'])] =
            (strip0x ("6001600101" : String).data).dropLast))
    ∧ parse_bytecode_to_instructions "6001600101" =
        .ok [(0, "6001"), (2, "6001"), (4, "01")] :=
  ⟨pc_chain_and_tiling_amended.1 "6001600101"
     [(0, ['6', '0', '0', '1']), (2, ['6', '0', '0', '1']), (4, ['0', '1'])] 5 (by decide),
   pc_chain_and_tiling_amended.2⟩

/-- Claim C5: carry-forward applies per field — a numeric field that is
absent, empty, negative, or unparseable (every case in which `_parse_int`
gives `None`) leaves the corresponding current scalar unchanged and the
emitted entry reuses it, likewise an absent or empty jump field; an
entirely empty entry emits the current scalars without modification.  The
two concrete decodes behave as the claim states. -/
theorem carry_forward_per_field :
    (∀ st : PrevState, entryStep st [] = (st, mappingOfState st))
    ∧ (∀ (st : PrevState) (e : List Char),
        _parse_int ((splitOn ':' e).getD 0 []) = none →
        (entryStep st e).1.prev_start = st.prev_start
          ∧ (entryStep st e).2.start = st.prev_start)
    ∧ (∀ (st : PrevState) (e : List Char),
        _parse_int ((splitOn ':' e).getD 1 []) = none →
        (entryStep st e).1.prev_length = st.prev_length
          ∧ (entryStep st e).2.length = st.prev_length)
    ∧ (∀ (st : PrevState) (e : List Char),
        _parse_int ((splitOn ':' e).getD 2 []) = none →
        (entryStep st e).1.prev_file = st.prev_file
          ∧ (entryStep st e).2.file_index = st.prev_file)
    ∧ (∀ (st : PrevState) (e : List Char),
        jumpFieldOf (splitOn ':' e) = none →
        (entryStep st e).1.prev_jump = st.prev_jump
          ∧ (entryStep st e).2.jump_type = st.prev_jump)
    ∧ (∀ (st : PrevState) (e : List Char),
        _parse_int ((splitOn ':' e).getD 4 []) = none →
        (entryStep st e).1.prev_modifier = st.prev_modifier
          ∧ (entryStep st e).2.modifier_depth = st.prev_modifier)
    ∧ ((SourceMapParser.init "10:20:0:-:0;;;").parse).1 =
        [⟨some 10, some 20, some 0, some "-", some 0⟩,
         ⟨some 10, some 20, some 0, some "-", some 0⟩,
         ⟨some 10, some 20, some 0, some "-", some 0⟩,
         ⟨some 10, some 20, some 0, some "-", some 0⟩]
    ∧ ((SourceMapParser.init "5:10:0:-:0;-1:10:0:-:0").parse).1 =
        [⟨some 5, some 10, some 0, some "-", some 0⟩,
         ⟨some 5, some 10, some 0, some "-", some 0⟩] := by
  refine ⟨?_, ?_, ?_, ?_, ?_, ?_, by decide, by decide⟩
  · intro st
    simp [entryStep]
  case refine_5 =>
    intro st e h
    by_cases he : e = []
    · simp [entryStep, he, mappingOfState]
    · simp [entryStep, if_neg he, h]
  all_goals
    intro st e h
    by_cases he : e = []
    · simp [entryStep, he, mappingOfState]
    · simp only [List.getD, List.get?_eq_getElem?] at h
      simp [entryStep, if_neg he, h]

/-- Claim C5 witness. -/
theorem carry_forward_per_field_witness :
    ((entryStep initialState ("-1:10" : String).data).1.prev_start = initialState.prev_start
      ∧ (entryStep initialState ("-1:10" : String).data).2.start = initialState.prev_start) :=
  carry_forward_per_field.2.1 initialState ("-1:10" : String).data (by decide)

/-- Claim C6: the record builder is positional — exactly one record per
instruction, in instruction order; record `i` takes its context from the
mapping at the same index `i` when one exists and carries no context
otherwise; mappings beyond the instruction count never influence the
output; unequal lengths never cause an error. -/
theorem positional_correlation :
    ∀ (instrs : List (Nat × String)) (mappings : List SourceMapping),
    (_build_instructions instrs mappings).length = instrs.length
    ∧ (∀ (i pc : Nat) (bs : String), instrs[i]? = some (pc, bs) →
        (_build_instructions instrs mappings)[i]? =
          some { pc := pc, opcode := String.mk (bs.data.take 2), bytes := bs,
                 context :=
                   match mappings[i]? with
                   | some m => _build_context m
                   | none => none }) := by
  intro instrs mappings
  constructor
  · exact buildInstructionsAux_length mappings instrs 0
  · intro i pc bs h
    rw [_build_instructions, buildInstructionsAux_getElem?, h]
    simp

/-- Claim C6 witness. -/
theorem positional_correlation_witness :
    (_build_instructions [(0, "6001")] []).length = [(0, "6001")].length
    ∧ (_build_instructions [(0, "6001")] [])[0]? =
        some { pc := 0, opcode := String.mk (("6001" : String).data.take 2), bytes := "6001",
               context :=
                 match ([] : List SourceMapping)[0]? with
                 | some m => _build_context m
                 | none => none } :=
  ⟨(positional_correlation [(0, "6001")] []).1,
   (positional_correlation [(0, "6001")] []).2 0 0 "6001" (by decide)⟩

/-- Claim C7: context construction yields nothing when the entry lacks a
valid location (start, length, or file index absent, or file index
negative); otherwise it yields a context with source id, start and
length, whose modifier depth field is present exactly when the entry's
modifier depth is present and strictly positive — a modifier depth of 0
never produces the field. -/
theorem context_construction :
    ∀ m : SourceMapping,
    ((m.start = none ∨ m.length = none ∨ m.file_index = none ∨
        (∃ f, m.file_index = some f ∧ f < 0)) → _build_context m = none)
    ∧ (∀ s l f, m.start = some s → m.length = some l → m.file_index = some f → 0 ≤ f →
        _build_context m =
          some { sourceId := f, rangeStart := s, rangeLength := l,
                 jump := match m.jump_type with
                         | some j => if j = "" then none else some j
                         | none => none,
                 modifierDepth := match m.modifier_depth with
                                  | some d => if 0 < d then some d else none
                                  | none => none })
    ∧ (∀ c, _build_context m = some c →
        ((m.modifier_depth = some 0 → c.modifierDepth = none)
          ∧ (∀ d, c.modifierDepth = some d → m.modifier_depth = some d ∧ 0 < d))) := by
  intro m
  obtain ⟨s?, l?, f?, j?, d?⟩ := m
  refine ⟨?_, ?_, ?_⟩
  · intro h
    rcases h with h | h | h | ⟨f, hf, hneg⟩
    · simp only [SourceMapping.start] at h
      subst h
      simp [_build_context, SourceMapping.has_source_location]
    · simp only [SourceMapping.length] at h
      subst h
      simp [_build_context, SourceMapping.has_source_location]
    · simp only [SourceMapping.file_index] at h
      subst h
      simp [_build_context, SourceMapping.has_source_location]
    · simp only [SourceMapping.file_index] at hf
      subst hf
      rcases s? with _ | s
      · simp [_build_context, SourceMapping.has_source_location]
      · rcases l? with _ | l
        · simp [_build_context, SourceMapping.has_source_location]
        · simp [_build_context, SourceMapping.has_source_location, show ¬ (0 ≤ f) by omega]
  · intro s l f hs hl hf hnn
    simp only [SourceMapping.start] at hs
    simp only [SourceMapping.length] at hl
    simp only [SourceMapping.file_index] at hf
    subst hs; subst hl; subst hf
    simp [_build_context, SourceMapping.has_source_location, hnn]
  · intro c hc
    rcases s? with _ | s
    · simp [_build_context, SourceMapping.has_source_location] at hc
    · rcases l? with _ | l
      · simp [_build_context, SourceMapping.has_source_location] at hc
      · rcases f? with _ | f
        · simp [_build_context, SourceMapping.has_source_location] at hc
        · by_cases hnn : 0 ≤ f
          · simp only [_build_context, SourceMapping.has_source_location, hnn] at hc
            simp at hc
            constructor
            · intro hd
              simp only [SourceMapping.modifier_depth] at hd
              subst hd
              rw [← hc]
              simp
            · intro d hd
              rw [← hc] at hd
              simp only [SourceMapping.modifier_depth]
              rcases d? with _ | d0
              · simp at hd
              · by_cases hpos : (0 : Int) < d0
                · simp [hpos] at hd
                  subst hd
                  exact ⟨rfl, hpos⟩
                · simp [hpos] at hd
          · simp [_build_context, SourceMapping.has_source_location, hnn] at hc

/-- Claim C7 witness. -/
theorem context_construction_witness :
    _build_context ⟨some 1, some 2, some (-3), none, none⟩ = none
    ∧ _build_context ⟨some 1, some 2, some 3, some "-", some 0⟩ =
        some { sourceId := 3, rangeStart := 1, rangeLength := 2,
               jump := match (⟨some 1, some 2, some 3, some "-", some 0⟩ : SourceMapping).jump_type with
                       | some j => if j = "" then none else some j
                       | none => none,
               modifierDepth := match (⟨some 1, some 2, some 3, some "-", some 0⟩ : SourceMapping).modifier_depth with
                                | some d => if 0 < d then some d else none
                                | none => none }
    ∧ ((⟨some 1, some 2, some 3, some "-", some 0⟩ : SourceMapping).modifier_depth = some 0 →
        (⟨3, 1, 2, some "-", none⟩ : CodeContext).modifierDepth = none) :=
  ⟨(context_construction ⟨some 1, some 2, some (-3), none, none⟩).1
     (Or.inr (Or.inr (Or.inr ⟨-3, rfl, by omega⟩))),
   (context_construction ⟨some 1, some 2, some 3, some "-", some 0⟩).2.1 1 2 3 rfl rfl rfl
     (by omega),
   ((context_construction ⟨some 1, some 2, some 3, some "-", some 0⟩).2.2
     ⟨3, 1, 2, some "-", none⟩ (by decide)).1⟩

/-- Claim C8 counterexample: on the odd-length input `"601"`, which ends
inside a truncated PUSH1 operand, the dangling half-byte `'1'` is not
discarded — it appears in the final instruction's raw bytes, which are
`"601"`, not `"60"`. -/
theorem dangling_digit_in_truncated_push :
    parse_bytecode_to_instructions "601" = .ok [(0, "601")]
    ∧ ("601" : String) ≠ "60" := by decide

/-- Claim C8 (amended): on any all-hex input the segmenter succeeds and a
final dangling half-byte never produces an instruction of its own and
never causes an error; it is silently dropped (the raw bytes tile the
buffer minus the final digit, as on `"016"`) unless the buffer ends
inside a truncated PUSH operand, in which case the dangling digit is
included in that last instruction's raw bytes (as on `"601"`). -/
theorem dangling_digit_amended :
    (∀ s : String, allHexB (strip0x s.data) = true →
      ∃ l fpc, pbAux (strip0x s.data) 0 = .ok (l, fpc) ∧
        (concatBytes l = strip0x s.data ∨ concatBytes l = (strip0x s.data).dropLast))
    ∧ parse_bytecode_to_instructions "016" = .ok [(0, "01")]
    ∧ parse_bytecode_to_instructions "601" = .ok [(0, "601")] := by
  refine ⟨?_, by decide, by decide⟩
  intro s hhex
  obtain ⟨l, fpc, hl⟩ := pbLoop_total (strip0x s.data).length (strip0x s.data) 0 le_rfl hhex
  exact ⟨l, fpc, hl,
    (pbLoop_sound (strip0x s.data).length (strip0x s.data) 0 l fpc le_rfl hl).2⟩

/-- Claim C8 witness. -/
theorem dangling_digit_amended_witness :
    (∃ l fpc, pbAux (strip0x ("016" : String).data) 0 = .ok (l, fpc) ∧
      (concatBytes l = strip0x ("016" : String).data
        ∨ concatBytes l = (strip0x ("016" : String).data).dropLast))
    ∧ parse_bytecode_to_instructions "016" = .ok [(0, "01")] :=
  ⟨dangling_digit_amended.1 "016" (by decide), dangling_digit_amended.2.1⟩

/-- Claim C9 counterexample: `parse()` is not idempotent on one parser
object — on `"1:1:0"` the second call returns a different (doubled)
sequence, because `parse` appends into `self.mappings` and returns it. -/
theorem parse_twice_differs :
    (((SourceMapParser.init "1:1:0").parse).2.parse).1 ≠
      ((SourceMapParser.init "1:1:0").parse).1 := by decide

/-- Claim C9 (amended): a first `parse()` on a fresh parser is a pure
function of the input string, but `parse()` mutates `self.mappings`: a
second call on the same object returns the first result appended to
itself rather than the same sequence. -/
theorem parse_state_accumulation : ∀ s : String,
    (((SourceMapParser.init s).parse).2.parse).1 =
      ((SourceMapParser.init s).parse).1 ++ ((SourceMapParser.init s).parse).1 := by
  intro s
  by_cases hs : s = ""
  · simp [SourceMapParser.parse, SourceMapParser.init, hs]
  · simp [SourceMapParser.parse, SourceMapParser.init, hs]

/-- Claim C10: every numeric field of every decoded entry is non-negative
whenever present, so the `file_index >= 0` test in `has_source_location`
never rejects a decoded entry whose file index is present: on decoded
entries `has_source_location` is exactly presence of the three location
fields. -/
theorem decoded_fields_nonneg : ∀ (s : String) (m : SourceMapping),
    m ∈ ((SourceMapParser.init s).parse).1 →
    (∀ v, m.start = some v → 0 ≤ v)
    ∧ (∀ v, m.length = some v → 0 ≤ v)
    ∧ (∀ v, m.file_index = some v → 0 ≤ v)
    ∧ (∀ v, m.modifier_depth = some v → 0 ≤ v)
    ∧ m.has_source_location =
        (m.start.isSome && m.length.isSome && m.file_index.isSome) := by
  intro s m hm
  obtain ⟨h1, h2, h3, h4, _⟩ := parse_mem_inv s m hm
  refine ⟨h1, h2, h3, h4, ?_⟩
  unfold SourceMapping.has_source_location
  cases hf : m.file_index with
  | none => simp
  | some f =>
    have := h3 f hf
    simp [this]

/-- Claim C10 witness. -/
theorem decoded_fields_nonneg_witness :
    (∀ v, (⟨some 1, some 2, some 3, some "-", some 4⟩ : SourceMapping).start = some v → 0 ≤ v)
    ∧ (∀ v, (⟨some 1, some 2, some 3, some "-", some 4⟩ : SourceMapping).length = some v → 0 ≤ v)
    ∧ (∀ v, (⟨some 1, some 2, some 3, some "-", some 4⟩ : SourceMapping).file_index = some v → 0 ≤ v)
    ∧ (∀ v, (⟨some 1, some 2, some 3, some "-", some 4⟩ : SourceMapping).modifier_depth = some v → 0 ≤ v)
    ∧ (⟨some 1, some 2, some 3, some "-", some 4⟩ : SourceMapping).has_source_location =
        ((⟨some 1, some 2, some 3, some "-", some 4⟩ : SourceMapping).start.isSome
          && (⟨some 1, some 2, some 3, some "-", some 4⟩ : SourceMapping).length.isSome
          && (⟨some 1, some 2, some 3, some "-", some 4⟩ : SourceMapping).file_index.isSome) :=
  decoded_fields_nonneg "1:2:3:-:4" ⟨some 1, some 2, some 3, some "-", some 4⟩ (by decide)
